import Mathlib

/- Shallow embedding of the theme/technical stock-screening engine
(`src/signals.py`, `src/theme_pipeline.py`, `src/scoring.py`, `src/report.py`,
`src/run.py`) and proofs about it.

Conventions used throughout:
* pandas/numpy floating point arithmetic is modelled over `ℚ` (the scoring
  formulas are plain field arithmetic, so the rational model computes the
  same values the float code approximates);
* a pandas `DataFrame` is a `List` of row structures, a Python `dict` is an
  association list, a Python `set` that the source only ever iterates in
  `sorted(...)` order is a deduplicated list that we sort when emitted;
* dates are modelled as integers (only their linear order is ever used);
* fallible cell access is made explicit with `Option`. -/

namespace Chunwan

/- ------------------------------------------------------------------ -/
/- Term tokenisation (src/theme_pipeline.py, src/signals.py)           -/
/- ------------------------------------------------------------------ -/

/-- Character class of `TERM_SPLIT_RE = re.compile(r"[,，;；、|\s]+")`
(theme_pipeline.py line 17): ASCII comma, fullwidth comma, ASCII semicolon,
fullwidth semicolon, the Chinese enumeration comma `、`, the pipe, and
whitespace. -/
def isTermDelim (c : Char) : Bool :=
  c = ',' || c = '，' || c = ';' || c = '；' || c = '、' || c = '|' || c.isWhitespace

/-- Split a character list at every character satisfying `p`.  The second
argument accumulates the (reversed) current chunk.  Dropping empty chunks
afterwards makes this equivalent both to the regex-`[...]+` split of
`_split_terms` and to Python `str.split("、")` followed by the
`if s.strip()` filter. -/
def splitChunksAux (p : Char → Bool) : List Char → List Char → List (List Char)
  | [], acc => [acc.reverse]
  | c :: rest, acc =>
      if p c then acc.reverse :: splitChunksAux p rest []
      else splitChunksAux p rest (c :: acc)

/-- Python `str.strip()` on a character list: drop whitespace from both ends. -/
def trimChars (l : List Char) : List Char :=
  ((l.dropWhile Char.isWhitespace).reverse.dropWhile Char.isWhitespace).reverse

/-- Python `str.strip()` (extensionally `String.trim`, written out over the
character list). -/
def trimStr (s : String) : String :=
  String.mk (trimChars s.toList)

/-- Python `str.lower()` (extensionally `String.toLower`, written out over
the character list). -/
def toLowerStr (s : String) : String :=
  String.mk (s.toList.map Char.toLower)

/-- Shared shape of both tokenizers in the source: split on a delimiter
predicate, `strip()` every chunk, keep the non-empty chunks. -/
def tokenizeWith (p : Char → Bool) (s : String) : List String :=
  ((splitChunksAux p s.toList []).map (fun cs => String.mk (trimChars cs))).filter
    (fun t => t ≠ "")

/-- `_split_terms` (theme_pipeline.py lines 41-42):
`[item.strip() for item in TERM_SPLIT_RE.split(str(value)) if item.strip()]`. -/
def split_terms (s : String) : List String :=
  tokenizeWith isTermDelim s

/-- The term-cell splitting done by `load_theme_industry_map`
(signals.py lines 63 and 66):
`[s.strip() for s in str(cell).split("、") if s.strip()]` — note that it
splits on the Chinese enumeration comma `、` only. -/
def loadMapCellTerms (s : String) : List String :=
  tokenizeWith (fun c => c = '、') s

/- ------------------------------------------------------------------ -/
/- Data model (src/signals.py, src/scoring.py)                         -/
/- ------------------------------------------------------------------ -/

/-- A scoring signal as produced by `load_signals` (signals.py lines 8-52). -/
structure Signal where
  id : String
  theme : String
  core_theme : String
  keywords : List String
  priority : String
  description : String
  weight : ℚ
  phase : String
deriving DecidableEq, Repr, Inhabited

/-- One entry of the theme map: the dict `{"type": map_type, "values": values}`
built by `load_theme_industry_map` (signals.py lines 55-70). -/
structure MapEntry where
  map_type : String
  values : List String
deriving DecidableEq, Repr, Inhabited

/-- `theme_map`: dict signal-id → list of entries, as an association list. -/
abbrev ThemeMap := List (String × List MapEntry)

/-- `theme_map.get(signal.id, [])` (scoring.py line 51). -/
def themeMapEntries (tm : ThemeMap) (sid : String) : List MapEntry :=
  (tm.lookup sid).getD []

/-- A row of `indicator_df` as consumed by `score_stocks`: the per-ticker
attribution labels plus the four zero-filled indicators produced by
`compute_indicators`.  The `concept` and `description` cells are only
meaningful when the corresponding frame column exists (see
`IndicatorFrame`). -/
structure IndicatorRow where
  ticker : String
  name : String
  industry : String
  concept : String
  description : String
  momentum_20 : ℚ
  momentum_60 : ℚ
  volatility_20 : ℚ
  avg_volume_20 : ℚ
  indicator_missing : Bool
deriving DecidableEq, Repr, Inhabited

/-- The `indicator_df` frame.  `score_stocks` tests column *presence*
(`"concept" in indicator_df.columns`, and membership of `"concept"` /
`"description"` in `label_columns`, scoring.py lines 40 and 60), which is a
frame-level fact, so the two optional columns carry an explicit presence
flag; the `industry` column is always present (scoring.py line 63 indexes it
unconditionally). -/
structure IndicatorFrame where
  rows : List IndicatorRow
  has_concept : Bool
  has_description : Bool
deriving DecidableEq, Repr, Inhabited

/-- Reading the `concept` cell through `row.get("concept", "")`: the empty
string when the column is absent. -/
def conceptCell (f : IndicatorFrame) (r : IndicatorRow) : String :=
  if f.has_concept then r.concept else ""

/-- Reading the `description` cell through `row.get("description", "")`. -/
def descriptionCell (f : IndicatorFrame) (r : IndicatorRow) : String :=
  if f.has_description then r.description else ""

/- ------------------------------------------------------------------ -/
/- Matching (score_stocks, scoring.py lines 32-100)                    -/
/- ------------------------------------------------------------------ -/

/-- Lexicographic comparison of character lists by code point, the order
Python uses to compare and sort strings (and extensionally the `≤` of
`String`). -/
def lexLe : List Char → List Char → Bool
  | [], _ => true
  | _ :: _, [] => false
  | a :: as, b :: bs => if a < b then true else if b < a then false else lexLe as bs

/-- Python string comparison `a <= b`. -/
def strLe (a b : String) : Bool :=
  lexLe a.toList b.toList

/-- Case-insensitive-ready substring test on character lists, the model of
Python `needle in hay` for strings (empty needle matches everything). -/
def charsContain (hay needle : List Char) : Bool :=
  match hay with
  | [] => needle.isEmpty
  | _ :: rest => needle.isPrefixOf hay || charsContain rest needle

/-- Python `key_lower in label.lower()` (scoring.py line 88). -/
def strContains (hay needle : String) : Bool :=
  charsContain hay.toList needle.toList

/-- `label_columns = [col for col in ("industry","concept","description")
if col in indicator_df.columns]` (scoring.py line 40); the `industry`
column is always present. -/
def labelColumns (f : IndicatorFrame) : List String :=
  ["industry"] ++ (if f.has_concept then ["concept"] else []) ++
    (if f.has_description then ["description"] else [])

/-- `str(row.get(col, ""))` for a label column. -/
def labelCell (f : IndicatorFrame) (r : IndicatorRow) (col : String) : String :=
  if col = "industry" then r.industry
  else if col = "concept" then conceptCell f r
  else if col = "description" then descriptionCell f r
  else ""

/-- The per-row label list (scoring.py lines 43-47): for each present label
column, the stripped cell value, kept when non-empty and not the string
`"nan"`. -/
def labelsOf (f : IndicatorFrame) (r : IndicatorRow) : List (String × String) :=
  (labelColumns f).filterMap (fun col =>
    let value := trimStr (labelCell f r col)
    if value ≠ "" && toLowerStr value ≠ "nan" then some (col, value) else none)

/-- `label_map[row["ticker"]] = labels` (scoring.py line 48): a dict write
per row, so for a duplicated ticker the *last* row wins. -/
def labelMap (f : IndicatorFrame) (t : String) : List (String × String) :=
  match (f.rows.filter (fun r => r.ticker = t)).getLast? with
  | some r => labelsOf f r
  | none => []

/-- The boolean mask of one map entry against one row (scoring.py lines
56-63): `ticker`-typed entries match the ticker cell, `concept`-typed
entries match the concept cell when that column exists, and everything else
falls through to the industry cell. -/
def entryMask (f : IndicatorFrame) (e : MapEntry) (r : IndicatorRow) : Bool :=
  let mt := toLowerStr e.map_type
  if mt = "ticker" then e.values.contains r.ticker
  else if mt = "concept" && f.has_concept then e.values.contains r.concept
  else e.values.contains r.industry

/-- `match_path = "concept" if map_type == "industry" else map_type`
(scoring.py line 69). -/
def entryPath (e : MapEntry) : String :=
  let mt := toLowerStr e.map_type
  if mt = "industry" then "concept" else mt

/-- The `matched_term` recorded for a map-based hit (scoring.py lines
71-76). -/
def entryTerm (f : IndicatorFrame) (e : MapEntry) (r : IndicatorRow) : String :=
  let mt := toLowerStr e.map_type
  if mt = "ticker" then r.ticker
  else if mt = "concept" then conceptCell f r
  else r.industry

/-- All (entry, row) pairs through which signal `s` hits ticker `t` in the
map-based pass: entry `e` of the signal's theme-map entries, row `r` of the
frame with that ticker and a true mask. -/
def mapHitPairs (f : IndicatorFrame) (tm : ThemeMap) (s : Signal) (t : String) :
    List (MapEntry × IndicatorRow) :=
  (themeMapEntries tm s.id).flatMap (fun e =>
    (f.rows.filter (fun r => r.ticker = t && entryMask f e r)).map (fun r => (e, r)))

/-- Match paths accumulated by the map-based pass for `(t, s)`. -/
def mapPaths (f : IndicatorFrame) (tm : ThemeMap) (s : Signal) (t : String) : List String :=
  (mapHitPairs f tm s t).map (fun p => entryPath p.1)

/-- Matched terms accumulated by the map-based pass: `if matched_term:` drops
the empty string (scoring.py line 77). -/
def mapTerms (f : IndicatorFrame) (tm : ThemeMap) (s : Signal) (t : String) : List String :=
  ((mapHitPairs f tm s t).map (fun p => entryTerm f p.1 p.2)).filter (fun v => v ≠ "")

/-- The label, if any, on which keyword `k` first matches (scoring.py lines
87-94: the inner loop over `labels` breaks at the first substring hit). -/
def keywordLabelHit (labels : List (String × String)) (k : String) :
    Option (String × String) :=
  labels.find? (fun lb => strContains (toLowerStr lb.2) (toLowerStr k))

/-- A `description` label hit is recorded with match path `concept`
(scoring.py lines 90-93). -/
def labelPath (col : String) : String :=
  if col = "description" then "concept" else col

/-- Keyword-based matched terms for `(t, s)`: the keywords themselves, in
keyword order (scoring.py line 89 appends the keyword, not the label). -/
def kwTerms (f : IndicatorFrame) (s : Signal) (t : String) : List String :=
  s.keywords.filter (fun k => (keywordLabelHit (labelMap f t) k).isSome)

/-- Keyword-based match paths for `(t, s)`. -/
def kwPaths (f : IndicatorFrame) (s : Signal) (t : String) : List String :=
  s.keywords.filterMap (fun k =>
    (keywordLabelHit (labelMap f t) k).map (fun lb => labelPath lb.1))

/-- Membership of ticker `t` in `signal_hit_tickers[signal.id]`: the map
pass adds the tickers of matching rows, the keyword pass adds tickers with
a non-empty `matched_terms` (scoring.py lines 67, 95-96). -/
def hitsTicker (f : IndicatorFrame) (tm : ThemeMap) (s : Signal) (t : String) : Bool :=
  ¬ (mapHitPairs f tm s t).isEmpty || ¬ (kwTerms f s t).isEmpty

/- ------------------------------------------------------------------ -/
/- Scoring (score_stocks, scoring.py lines 102-144)                    -/
/- ------------------------------------------------------------------ -/

/-- Insert `a` into `l` before the first element `b` with `le a b`; on a
key-sorted `l` this is the insertion step of a *stable* sort (an element
ties with `b` when `le a b` and `le b a` both hold, and the inserted,
earlier element lands in front). -/
def insertSorted {α : Type} (le : α → α → Bool) (a : α) : List α → List α
  | [] => [a]
  | b :: l => if le a b then a :: b :: l else b :: insertSorted le a l

/-- Stable insertion sort.  This models Python's stable `list.sort` /
`sorted` exactly; for pandas `sort_values` (numpy quicksort, whose tie
order is implementation-defined) it is the stable model, matching numpy's
behaviour on sub-threshold partitions. -/
def stableSortBy {α : Type} (le : α → α → Bool) : List α → List α
  | [] => []
  | a :: l => insertSorted le a (stableSortBy le l)

/-- Keep-first deduplication, the order in which a Python dict keyed by
these strings iterates. -/
def dedupFirstAux : List String → List String → List String
  | [], _ => []
  | x :: xs, seen => if x ∈ seen then dedupFirstAux xs seen else x :: dedupFirstAux xs (x :: seen)

/-- Keep-first deduplication of a string list. -/
def dedupFirst (l : List String) : List String :=
  dedupFirstAux l []

/-- Python `sorted(...)` on strings: lexicographic by code point, which is
exactly the `LinearOrder String` order. -/
def sortStr (l : List String) : List String :=
  stableSortBy strLe l

/-- `sorted(set(...))` over the accumulated string sets of a hit detail. -/
def sortedSet (l : List String) : List String :=
  sortStr (dedupFirst l)

/-- Whether `signal_hit_tickers[signal.id]` is non-empty (the
`if not tickers: continue` guard, scoring.py line 107): some row's ticker is
hit. -/
def signalHasHit (f : IndicatorFrame) (tm : ThemeMap) (s : Signal) : Bool :=
  f.rows.any (fun r => hitsTicker f tm s r.ticker)

/-- The theme-score fold of scoring.py lines 102-110: starting from 0.0,
each signal is skipped when `weight <= 0` or its hit set is empty, and
otherwise adds `weight` to every row whose ticker is in the hit set. -/
def themeScoreOf (f : IndicatorFrame) (tm : ThemeMap) (signals : List Signal)
    (t : String) : ℚ :=
  signals.foldl (fun acc s =>
    if s.weight ≤ 0 then acc
    else if ¬ signalHasHit f tm s then acc
    else if hitsTicker f tm s t then acc + s.weight else acc) 0

/-- `series.rank(pct=True)` (scoring.py lines 28-29), pandas default method
`average`: the rank of value `v` within `xs` is the mean ordinal rank of its
ties, `#{u | u < v} + (#{u | u = v} + 1)/2`, divided by the series length.
(The series is already zero-filled, so there are no NaN entries.) -/
def rankPct (xs : List ℚ) (v : ℚ) : ℚ :=
  (((xs.countP (fun u => u < v) : ℕ) : ℚ) +
      (((xs.countP (fun u => u = v) : ℕ) : ℚ) + 1) / 2) / ((xs.length : ℕ) : ℚ)

/-- A row of the scored frame: the indicator row plus the columns added by
`score_stocks` (scoring.py lines 112-123) and the `technical_score` column
that the callers read. -/
structure ScoredRow extends IndicatorRow where
  theme_score : ℚ
  momentum_20_rank : ℚ
  momentum_60_rank : ℚ
  volume_rank : ℚ
  technical_score : ℚ
  final_score : ℚ
deriving DecidableEq, Repr, Inhabited

/-- Modelled from the spec: the `technical_score` column.  `run.py` (lines
411 and 416) and `report.py` (line 114) read `scored_df["technical_score"]`,
but no file under the provided source assigns it; the definition of the
column is the missing piece.  The spec fixes it: `final_score = theme_score
+ 0.5*momentum_20_rank + 0.3*momentum_60_rank + 0.2*volume_rank` together
with `score_breakdown`'s tech components at the fixed 0.5/0.3/0.2 weights
and `final_score = score_theme_total + score_tech_total`, so
`technical_score = 0.5*momentum_20_rank + 0.3*momentum_60_rank +
0.2*volume_rank`. -/
def technicalScore (r20 r60 rv : ℚ) : ℚ :=
  1/2 * r20 + 3/10 * r60 + 1/5 * rv

/-- One accumulated hit detail rendered into the `hit_map` (scoring.py lines
128-142): identifiers and weight from the signal, the three accumulated
sets emitted in sorted order. -/
structure HitEntry where
  signal_id : String
  theme : String
  signal_theme : String
  weight : ℚ
  match_paths : List String
  matched_terms : List String
  matched_source : List String
deriving DecidableEq, Repr, Inhabited

/-- `hit_map`: dict ticker → hit entries, as an association list. -/
abbrev HitMap := List (String × List HitEntry)

/-- The hit entry emitted for `(t, s)` (scoring.py lines 132-142), provided
`hitsTicker` holds.  `matched_source` contains `"map"` and/or `"signals"`
according to which pass hit (lines 79 and 100). -/
def mkHitEntry (f : IndicatorFrame) (tm : ThemeMap) (s : Signal) (t : String) : HitEntry :=
  { signal_id := s.id
    theme := s.core_theme
    signal_theme := s.theme
    weight := s.weight
    match_paths := sortedSet (mapPaths f tm s t ++ kwPaths f s t)
    matched_terms := sortedSet (mapTerms f tm s t ++ kwTerms f s t)
    matched_source := sortedSet
      ((if ¬ (mapHitPairs f tm s t).isEmpty then ["map"] else []) ++
        (if ¬ (kwTerms f s t).isEmpty then ["signals"] else [])) }

/-- The `hit_map` built by `score_stocks` (scoring.py lines 125-143):
one key per ticker that accumulated at least one detail, whose entry list
follows the order of the `signals` list.  (The source keys the inner detail
dict by `signal.id`; as in every shipped catalog, signal ids are assumed
unique, under which the two presentations coincide.  The outer dict's
first-hit key order is modelled as first-row order; no property proved here
depends on the outer order.) -/
def hitMapOf (f : IndicatorFrame) (tm : ThemeMap) (signals : List Signal) : HitMap :=
  (dedupFirst (f.rows.map (fun r => r.ticker))).filterMap (fun t =>
    let entries := signals.filterMap (fun s =>
      if hitsTicker f tm s t then some (mkHitEntry f tm s t) else none)
    if entries.isEmpty then none else some (t, entries))

/-- `score_stocks` (scoring.py lines 32-144): the scored frame and the hit
map.  The rank denominators range over the full scored set; the
`fillna(0)` before ranking is the identity here because the indicator
columns were already zero-filled by `compute_indicators`. -/
def scoreStocks (f : IndicatorFrame) (signals : List Signal) (tm : ThemeMap) :
    List ScoredRow × HitMap :=
  let m20s := f.rows.map (fun r => r.momentum_20)
  let m60s := f.rows.map (fun r => r.momentum_60)
  let vols := f.rows.map (fun r => r.avg_volume_20)
  let scored := f.rows.map (fun r =>
    let r20 := rankPct m20s r.momentum_20
    let r60 := rankPct m60s r.momentum_60
    let rv := rankPct vols r.avg_volume_20
    let th := themeScoreOf f tm signals r.ticker
    { toIndicatorRow := r
      theme_score := th
      momentum_20_rank := r20
      momentum_60_rank := r60
      volume_rank := rv
      technical_score := technicalScore r20 r60 rv
      final_score := th + 1/2 * r20 + 3/10 * r60 + 1/5 * rv })
  (scored, hitMapOf f tm signals)

/- ------------------------------------------------------------------ -/
/- Indicators (compute_indicators, scoring.py lines 11-25)             -/
/- ------------------------------------------------------------------ -/

/-- A row of the price history frame. -/
structure PriceBar where
  ticker : String
  date : Int
  close : ℚ
  volume : ℚ
deriving DecidableEq, Repr, Inhabited

/-- A row of the frame returned by `compute_indicators`: the bar at the
as-of date plus the four indicator columns (zero-filled) and the
missing-data flag. -/
structure LatestRow where
  ticker : String
  date : Int
  close : ℚ
  volume : ℚ
  momentum_20 : ℚ
  momentum_60 : ℚ
  volatility_20 : ℚ
  avg_volume_20 : ℚ
  indicator_missing : Bool
deriving DecidableEq, Repr, Inhabited

/-- `groupby("ticker")[...].pct_change(k)` at position `i` of a per-ticker
series: `close[i]/close[i-k] - 1`, `NaN` (here `none`) for the first `k`
positions. -/
def pctChangeAt (s : List PriceBar) (k i : ℕ) : Option ℚ :=
  if k ≤ i then some ((s.getD i default).close / (s.getD (i - k) default).close - 1)
  else none

/-- The daily return at position `i` (defined for `1 ≤ i`), as a plain
rational; used inside the volatility window where definedness is already
guaranteed. -/
def returnAt (s : List PriceBar) (i : ℕ) : ℚ :=
  (s.getD i default).close / (s.getD (i - 1) default).close - 1

/-- Sample variance (`ddof=1`) of a list of rationals.  The source's
`rolling(20).std()` is the square root of this; no property in this
development reads the numeric value of `volatility_20` (only its
`NaN`-ness, which `sqrt` preserves since the variance is non-negative), so
the variance stands in for the standard deviation to stay inside `ℚ`. -/
def sampleVar (xs : List ℚ) : ℚ :=
  let n : ℚ := ((xs.length : ℕ) : ℚ)
  let m : ℚ := xs.sum / n
  (xs.map (fun x => (x - m) ^ 2)).sum / (n - 1)

/-- `rolling(20).std()` of the daily returns at position `i`: defined when
the window `i-19..i` holds 20 non-NaN returns, i.e. when `20 ≤ i`. -/
def volatilityAt (s : List PriceBar) (i : ℕ) : Option ℚ :=
  if 20 ≤ i then some (sampleVar ((List.range 20).map (fun j => returnAt s (i - 19 + j))))
  else none

/-- `rolling(20).mean()` of volume at position `i`: defined when `19 ≤ i`. -/
def avgVolumeAt (s : List PriceBar) (i : ℕ) : Option ℚ :=
  if 19 ≤ i then
    some (((List.range 20).map (fun j => (s.getD (i - 19 + j) default).volume)).sum / 20)
  else none

/-- The output row built from position `i` of a per-ticker series
(scoring.py lines 21-24): `indicator_missing` is true when any of the four
indicators is NaN, and NaN indicator values are replaced by 0. -/
def latestRowAt (s : List PriceBar) (i : ℕ) : LatestRow :=
  let b := s.getD i default
  let m20 := pctChangeAt s 20 i
  let m60 := pctChangeAt s 59 i
  let v20 := volatilityAt s i
  let av20 := avgVolumeAt s i
  { ticker := b.ticker
    date := b.date
    close := b.close
    volume := b.volume
    momentum_20 := m20.getD 0
    momentum_60 := m60.getD 0
    volatility_20 := v20.getD 0
    avg_volume_20 := av20.getD 0
    indicator_missing := m20.isNone || m60.isNone || v20.isNone || av20.isNone }

/-- The date-sorted series of one ticker within the cutoff-filtered frame. -/
def tickerSeries (df : List PriceBar) (t : String) : List PriceBar :=
  stableSortBy (fun a b => decide (a.date ≤ b.date)) (df.filter (fun b => b.ticker = t))

/-- The rows a single ticker contributes to `latest`: the positions of its
series whose bar is dated exactly `as_of`. -/
def latestRowsFor (df : List PriceBar) (as_of : Int) (t : String) : List LatestRow :=
  (tickerSeries df t).enum.filterMap (fun p =>
    if p.2.date = as_of then some (latestRowAt (tickerSeries df t) p.1) else none)

/-- The body of `compute_indicators` after the cutoff filter: the frame is
sorted by `["ticker", "date"]`, so the output is grouped by ticker in
ascending ticker order, each group date-sorted, restricted to the rows
dated `as_of`. -/
def computeIndicatorsFrom (df : List PriceBar) (as_of : Int) : List LatestRow :=
  (sortStr (dedupFirst (df.map (fun b => b.ticker)))).flatMap (latestRowsFor df as_of)

/-- `compute_indicators` (scoring.py lines 11-25): filter `date <= as_of`
first, then compute the indicator columns per ticker and keep the rows
dated exactly `as_of`. -/
def computeIndicators (bars : List PriceBar) (as_of : Int) : List LatestRow :=
  computeIndicatorsFrom (bars.filter (fun b => b.date ≤ as_of)) as_of

/- ------------------------------------------------------------------ -/
/- Theme-weight ablation (run.py lines 406-411)                        -/
/- ------------------------------------------------------------------ -/

/-- The post-hoc ablation of run.py lines 408-411: when `theme_weight == 0`
the caller zeroes `theme_score` and overwrites `final_score` with
`technical_score`; otherwise the scored frame passes through untouched. -/
def ablateScores (theme_weight : ℚ) (scored : List ScoredRow) : List ScoredRow :=
  if theme_weight = 0 then
    scored.map (fun r => { r with theme_score := 0, final_score := r.technical_score })
  else scored

/-- The scoring stage of `main` (run.py lines 406-411): score, then apply
the theme-weight ablation to the frame; the hit map is returned as
produced. -/
def runScored (theme_weight : ℚ) (f : IndicatorFrame) (signals : List Signal)
    (tm : ThemeMap) : List ScoredRow × HitMap :=
  let sh := scoreStocks f signals tm
  (ablateScores theme_weight sh.1, sh.2)

/-- Descending order on `final_score`, the key of
`sort_values("final_score", ascending=False)`.  `sort_values` leaves the
relative order of equal keys implementation-defined (numpy quicksort); it
is modelled as the stable `stableSortBy`, which also matches numpy's
behaviour on sub-threshold partitions. -/
def leFinal (a b : ScoredRow) : Bool :=
  decide (b.final_score ≤ a.final_score)

/- ------------------------------------------------------------------ -/
/- Issue lists (compute_issue_lists, run.py lines 153-171)             -/
/- ------------------------------------------------------------------ -/

/-- `compute_issue_lists` (run.py lines 153-171): the `fatal` list drives
`report["issues"] = len(issue_list)`; the `warnings` argument passes
through unchanged. -/
def computeIssueLists (n_results top_n : ℕ) (fallback_used provider_fallback : Bool)
    (warnings : List String) : List String × List String :=
  ((if n_results < top_n then ["insufficient_results"] else []) ++
      (if provider_fallback then ["provider_fallback"] else []) ++
      (if fallback_used then ["fallback_used:theme_insufficient"] else []),
    warnings)

/- ------------------------------------------------------------------ -/
/- Report building (build_report, report.py lines 50-202)              -/
/- ------------------------------------------------------------------ -/

/-- One merged theme-hit entry (report.py lines 64-96): the per-signal hit
entries of a ticker grouped by `core_theme`, ids/themes/paths/terms/sources
unioned and emitted sorted, weights summed. -/
structure MergedHit where
  theme : String
  signal_ids : List String
  signal_themes : List String
  weight : ℚ
  match_paths : List String
  matched_terms : List String
  matched_source : List String
deriving DecidableEq, Repr, Inhabited

/-- The merge of a ticker's hit entries by core theme (report.py lines
64-96).  The merged dict is keyed by `hit["theme"]` in first-seen order;
`signal_id` / `signal_theme` are only collected when truthy (non-empty). -/
def mergeHits (hits : List HitEntry) : List MergedHit :=
  (dedupFirst (hits.map (fun h => h.theme))).map (fun key =>
    let es := hits.filter (fun h => h.theme = key)
    { theme := key
      signal_ids := sortedSet ((es.map (fun h => h.signal_id)).filter (fun v => v ≠ ""))
      signal_themes := sortedSet ((es.map (fun h => h.signal_theme)).filter (fun v => v ≠ ""))
      weight := (es.map (fun h => h.weight)).sum
      match_paths := sortedSet (es.flatMap (fun h => h.match_paths))
      matched_terms := sortedSet (es.flatMap (fun h => h.matched_terms))
      matched_source := sortedSet (es.flatMap (fun h => h.matched_source)) })

/-- `hit_map.get(row["ticker"], [])` (report.py line 63). -/
def hitMapLookup (hm : HitMap) (t : String) : List HitEntry :=
  (hm.lookup t).getD []

/-- The `contributions` list of report.py lines 130-135: for each of the
four scoring components, its Python sort key name, its contribution value
and the prefix of its rendered string (`f"{prefix}:+{value:.3f}"` — the
fixed-precision decimal rendering is kept abstract as the
(prefix, value) pair). -/
def contributions (theme_total c20 c60 cv : ℚ) : List (String × ℚ × String) :=
  [("theme", theme_total, "theme"),
   ("momentum_20", c20, "tech_momentum_20"),
   ("momentum_60", c60, "tech_momentum_60"),
   ("volume", cv, "tech_volume")]

/-- The comparison implied by `contributions.sort(key=lambda x: (-x[1],
x[0]))` (report.py line 136): contribution value descending, component
sort-key name ascending on ties; Python `list.sort` is stable, and so is
`stableSortBy`. -/
def contribLe (a b : String × ℚ × String) : Bool :=
  decide (b.2.1 < a.2.1) || (decide (a.2.1 = b.2.1) && strLe a.1 b.1)

/-- The sorted contributions list. -/
def sortedContributions (theme_total c20 c60 cv : ℚ) : List (String × ℚ × String) :=
  stableSortBy contribLe (contributions theme_total c20 c60 cv)

/-- `why_in_top5 = [item[2] for item in contributions[:3]]` (report.py line
137), with each rendered string abstracted to its (prefix, value) pair. -/
def whyInTop5 (theme_total c20 c60 cv : ℚ) : List (String × ℚ) :=
  ((sortedContributions theme_total c20 c60 cv).take 3).map (fun x => (x.2.2, x.2.1))

/-- The per-row tech components at the fixed 0.5/0.3/0.2 weights
(report.py lines 97-101). -/
def techComponentsOf (r : ScoredRow) : ℚ × ℚ × ℚ :=
  (1/2 * r.momentum_20_rank, 3/10 * r.momentum_60_rank, 1/5 * r.volume_rank)

/-- A results row of the report (report.py lines 166-195), restricted to the
fields the verified properties read.  `themes_used`, `concept_hits` and the
human-readable narrative are omitted: they involve file I/O
(`normalize_themes_used` re-reads a CSV) and fixed-format float rendering,
and no claim in this development depends on them. -/
structure ReportRow where
  ticker : String
  name : String
  industry : String
  final_score : ℚ
  theme_hits : List MergedHit
  score_total : ℚ
  score_tech_total : ℚ
  score_theme_total : ℚ
  theme_score : ℚ
  momentum_20_rank : ℚ
  momentum_60_rank : ℚ
  volume_rank : ℚ
  why_in_top5 : List (String × ℚ)
deriving DecidableEq, Repr, Inhabited

/-- The results rows of `build_report` (report.py lines 60-195):
re-sort the incoming frame by `final_score` descending, truncate to
`top_n`, and render each row.  `score_tech_total` reads the
`technical_score` column (line 114). -/
def buildReportRows (scored : List ScoredRow) (hm : HitMap) (top_n : ℕ) :
    List ReportRow :=
  ((stableSortBy leFinal scored).take top_n).map (fun r =>
    let tc := techComponentsOf r
    { ticker := r.ticker
      name := r.name
      industry := r.industry
      final_score := r.final_score
      theme_hits := mergeHits (hitMapLookup hm r.ticker)
      score_total := r.theme_score + r.technical_score
      score_tech_total := r.technical_score
      score_theme_total := r.theme_score
      theme_score := r.theme_score
      momentum_20_rank := r.momentum_20_rank
      momentum_60_rank := r.momentum_60_rank
      volume_rank := r.volume_rank
      why_in_top5 := whyInTop5 r.theme_score tc.1 tc.2.1 tc.2.2 })

/- ------------------------------------------------------------------ -/
/- Concrete inputs used by counterexamples and witnesses               -/
/- ------------------------------------------------------------------ -/

/-- A high-priority signal with one keyword, in the shape `load_signals`
produces. -/
def exSignal : Signal :=
  { id := "signal_001", theme := "AI", core_theme := "AI", keywords := ["ai"],
    priority := "high", description := "", weight := 1, phase := "live" }

/-- The conventional weight-0 risk signal, with a keyword that matches the
example frame's industry label. -/
def exSignalZero : Signal :=
  { id := "signal_009", theme := "Risk", core_theme := "Risk", keywords := ["tech"],
    priority := "low", description := "", weight := 0, phase := "live" }

/-- First example indicator row. -/
def exRow1 : IndicatorRow :=
  { ticker := "600000", name := "A", industry := "biotech", concept := "AI",
    description := "", momentum_20 := 1/10, momentum_60 := 1/5, volatility_20 := 0,
    avg_volume_20 := 100, indicator_missing := false }

/-- Second example indicator row. -/
def exRow2 : IndicatorRow :=
  { ticker := "600001", name := "B", industry := "bank", concept := "fin",
    description := "", momentum_20 := -1/10, momentum_60 := 0, volatility_20 := 0,
    avg_volume_20 := 50, indicator_missing := false }

/-- A two-row indicator frame with a concept column and no description
column. -/
def exFrame : IndicatorFrame :=
  { rows := [exRow1, exRow2], has_concept := true, has_description := false }

/-- A theme map giving `signal_001` one concept-typed entry. -/
def exThemeMap : ThemeMap :=
  [("signal_001", [{ map_type := "concept", values := ["AI"] }])]

/-- A scored row whose theme contribution ties its momentum-20 contribution
(both 1/5), exhibiting the `why_in_top5` tie order. -/
def tieRow : ScoredRow :=
  { ticker := "600002", name := "C", industry := "X", concept := "",
    description := "", momentum_20 := 0, momentum_60 := 0, volatility_20 := 0,
    avg_volume_20 := 0, indicator_missing := false, theme_score := 1/5,
    momentum_20_rank := 2/5, momentum_60_rank := 0, volume_rank := 0,
    technical_score := technicalScore (2/5) 0 0, final_score := 1/5 + 1/2 * (2/5) }

/-- A three-bar single-ticker price history around the as-of date 20 (the
shape of the repository's own `test_no_future` fixture). -/
def exBars : List PriceBar :=
  [{ ticker := "A0001", date := 19, close := 100, volume := 1000 },
   { ticker := "A0001", date := 20, close := 110, volume := 1100 },
   { ticker := "A0001", date := 21, close := 999, volume := 9999 }]

/- ------------------------------------------------------------------ -/
/- Helper lemmas                                                       -/
/- ------------------------------------------------------------------ -/

/-- Elements of `dedupFirstAux l seen` come from `l`. -/
theorem mem_of_mem_dedupFirstAux {l seen : List String} {x : String}
    (h : x ∈ dedupFirstAux l seen) : x ∈ l := by
  induction l generalizing seen with
  | nil => simp [dedupFirstAux] at h
  | cons a t ih =>
    rw [dedupFirstAux] at h
    by_cases ha : a ∈ seen
    · simp only [if_pos ha] at h
      exact List.mem_cons_of_mem _ (ih h)
    · simp only [if_neg ha, List.mem_cons] at h
      rcases h with h | h
      · exact h ▸ List.mem_cons_self _ _
      · exact List.mem_cons_of_mem _ (ih h)

/-- Elements of `l` survive into `dedupFirstAux l seen` unless already seen. -/
theorem mem_dedupFirstAux_of_mem {l : List String} {x : String} (hx : x ∈ l) :
    ∀ seen : List String, x ∈ dedupFirstAux l seen ∨ x ∈ seen := by
  induction l with
  | nil => cases hx
  | cons a t ih =>
    intro seen
    rw [dedupFirstAux]
    by_cases ha : a ∈ seen
    · rw [if_pos ha]
      rcases List.mem_cons.mp hx with h | h
      · exact Or.inr (h ▸ ha)
      · exact ih h seen
    · rw [if_neg ha]
      rcases List.mem_cons.mp hx with h | h
      · exact Or.inl (h ▸ List.mem_cons_self _ _)
      · rcases ih h (a :: seen) with h2 | h2
        · exact Or.inl (List.mem_cons_of_mem _ h2)
        · rcases List.mem_cons.mp h2 with h3 | h3
          · exact Or.inl (h3 ▸ List.mem_cons_self _ _)
          · exact Or.inr h3

/-- Membership in a keep-first deduplication. -/
theorem mem_dedupFirst {l : List String} {x : String} :
    x ∈ dedupFirst l ↔ x ∈ l := by
  constructor
  · exact fun h => mem_of_mem_dedupFirstAux h
  · intro h
    rcases mem_dedupFirstAux_of_mem h [] with h2 | h2
    · exact h2
    · cases h2

/-- `dedupFirstAux` yields a duplicate-free list disjoint from `seen`. -/
theorem dedupFirstAux_nodup (l : List String) :
    ∀ seen : List String,
      (dedupFirstAux l seen).Nodup ∧ ∀ x ∈ dedupFirstAux l seen, x ∉ seen := by
  induction l with
  | nil => intro seen; simp [dedupFirstAux]
  | cons a t ih =>
    intro seen
    rw [dedupFirstAux]
    by_cases ha : a ∈ seen
    · rw [if_pos ha]; exact ih seen
    · rw [if_neg ha]
      obtain ⟨hnd, hdisj⟩ := ih (a :: seen)
      refine ⟨List.nodup_cons.mpr ⟨fun hmem => ?_, hnd⟩, ?_⟩
      · exact hdisj a hmem (List.mem_cons_self _ _)
      · intro x hx
        rcases List.mem_cons.mp hx with h | h
        · exact h ▸ ha
        · exact fun hxs => hdisj x h (List.mem_cons_of_mem _ hxs)

/-- Inserting into a list permutes consing onto it. -/
theorem insertSorted_perm {α : Type} (le : α → α → Bool) (a : α) (l : List α) :
    (insertSorted le a l).Perm (a :: l) := by
  induction l with
  | nil => exact List.Perm.refl _
  | cons b t ih =>
    rw [insertSorted]
    by_cases h : le a b = true
    · rw [if_pos h]
    · rw [if_neg h]
      exact ((ih.cons b).trans (List.Perm.swap a b t))

/-- The stable sort is a permutation of its input. -/
theorem stableSortBy_perm {α : Type} (le : α → α → Bool) (l : List α) :
    (stableSortBy le l).Perm l := by
  induction l with
  | nil => exact List.Perm.refl _
  | cons a t ih =>
    rw [stableSortBy]
    exact (insertSorted_perm le a _).trans (ih.cons a)

/-- The stable sort preserves length. -/
theorem length_stableSortBy {α : Type} (le : α → α → Bool) (l : List α) :
    (stableSortBy le l).length = l.length :=
  (stableSortBy_perm le l).length_eq

/-- Insertion preserves sortedness, given transitivity and totality of the
comparison. -/
theorem pairwise_insertSorted {α : Type} {le : α → α → Bool}
    (htrans : ∀ a b c, le a b = true → le b c = true → le a c = true)
    (htot : ∀ a b, le a b = true ∨ le b a = true) {a : α} {l : List α}
    (hl : l.Pairwise (fun x y => le x y = true)) :
    (insertSorted le a l).Pairwise (fun x y => le x y = true) := by
  induction l with
  | nil => simp [insertSorted]
  | cons b t ih =>
    rw [insertSorted]
    obtain ⟨hb, ht⟩ := List.pairwise_cons.mp hl
    by_cases h : le a b = true
    · rw [if_pos h]
      refine List.pairwise_cons.mpr ⟨?_, hl⟩
      intro y hy
      rcases List.mem_cons.mp hy with hy | hy
      · exact hy ▸ h
      · exact htrans a b y h (hb y hy)
    · rw [if_neg h]
      have hba : le b a = true := (htot a b).resolve_left h
      refine List.pairwise_cons.mpr ⟨?_, ih ht⟩
      intro y hy
      rcases List.mem_cons.mp ((insertSorted_perm le a t).mem_iff.mp hy) with hy2 | hy2
      · exact hy2 ▸ hba
      · exact hb y hy2

/-- The stable sort orders its output, given transitivity and totality of
the comparison. -/
theorem pairwise_stableSortBy {α : Type} {le : α → α → Bool}
    (htrans : ∀ a b c, le a b = true → le b c = true → le a c = true)
    (htot : ∀ a b, le a b = true ∨ le b a = true) (l : List α) :
    (stableSortBy le l).Pairwise (fun x y => le x y = true) := by
  induction l with
  | nil => exact List.Pairwise.nil
  | cons a t ih => exact pairwise_insertSorted htrans htot ih

/-- Keep-first deduplication is duplicate-free. -/
theorem dedupFirst_nodup (l : List String) : (dedupFirst l).Nodup :=
  (dedupFirstAux_nodup l []).1

/-- Membership in the sorted set view of an accumulated string set. -/
theorem mem_sortedSet {l : List String} {x : String} :
    x ∈ sortedSet l ↔ x ∈ l := by
  unfold sortedSet sortStr
  rw [(stableSortBy_perm _ _).mem_iff]
  exact mem_dedupFirst

/-- C8: counterexample.  The claim says the theme-map loader and the
fallback term dictionary tokenize every cell identically over the full
delimiter set (commas, Chinese punctuation, pipes, whitespace).  On the
cell `"a,b"` the loader (which splits on `、` only, signals.py lines 63/66)
keeps it whole, while `_split_terms` splits at the ASCII comma. -/
theorem C8_counterexample :
    loadMapCellTerms "a,b" = ["a,b"] ∧ split_terms "a,b" = ["a", "b"] ∧
      loadMapCellTerms "a,b" ≠ split_terms "a,b" := by
  refine ⟨by decide, by decide, by decide⟩

/-- `splitChunksAux` only looks at the delimiter predicate on characters of
the list being split. -/
theorem splitChunksAux_congr {p q : Char → Bool} {l : List Char}
    (h : ∀ c ∈ l, p c = q c) :
    ∀ acc : List Char, splitChunksAux p l acc = splitChunksAux q l acc := by
  induction l with
  | nil => intro acc; rfl
  | cons c rest ih =>
    intro acc
    have hc : p c = q c := h c (List.mem_cons_self _ _)
    have hr : ∀ x ∈ rest, p x = q x := fun x hx => h x (List.mem_cons_of_mem _ hx)
    rw [splitChunksAux, splitChunksAux, hc]
    by_cases hq : q c = true
    · rw [if_pos hq, if_pos hq, ih hr]
    · rw [if_neg hq, if_neg hq, ih hr]

/-- C8 (amended): the theme-map loader splits term cells on the Chinese
enumeration comma `、` only, while `_split_terms` (used for the fallback
term dictionary and the candidate pipeline) splits on the full delimiter
set; the two tokenizations of a cell agree exactly when every delimiter
occurring in the cell is `、`. -/
theorem C8_tokenizers_agree_without_extra_delims (s : String)
    (h : ∀ c ∈ s.toList, isTermDelim c = true → c = '、') :
    loadMapCellTerms s = split_terms s := by
  unfold loadMapCellTerms split_terms tokenizeWith
  have hcong : ∀ c ∈ s.toList, decide (c = '、') = isTermDelim c := by
    intro c hc
    by_cases h1 : c = '、'
    · subst h1; decide
    · by_cases h2 : isTermDelim c = true
      · exact absurd (h c hc h2) h1
      · simp [h1, h2]
  rw [splitChunksAux_congr hcong]

/-- C8 (amended) witness: on the cell `"甲、乙"` the hypothesis holds and
the two tokenizers agree. -/
theorem C8_tokenizers_agree_without_extra_delims_witness :
    (∀ c ∈ ("甲、乙" : String).toList, isTermDelim c = true → c = '、') ∧
      loadMapCellTerms "甲、乙" = split_terms "甲、乙" :=
  ⟨by decide, C8_tokenizers_agree_without_extra_delims "甲、乙" (by decide)⟩

/-- C6: counterexample.  The claim says informational fallbacks (like the
theme-insufficient fill) never increase the `issues` counter and surface
only through the warnings list.  But `compute_issue_lists` (run.py lines
163-171) appends `fallback_used:theme_insufficient` to its *fatal* list —
the list whose length becomes `report["issues"]` — even when the result
count is sufficient, and leaves the warnings untouched. -/
theorem C6_counterexample :
    computeIssueLists 1 1 true false [] = (["fallback_used:theme_insufficient"], []) ∧
      (computeIssueLists 1 1 true false []).1.length = 1 :=
  ⟨rfl, rfl⟩

/-- C6 (amended): the issue list counted by `report["issues"]` contains
exactly `insufficient_results` (when the result count is short),
`provider_fallback`, and `fallback_used:theme_insufficient`; the two
fallback flags therefore do increase the counter, and the warnings list
passes through `compute_issue_lists` unchanged. -/
theorem C6_issue_list_contents (n top : ℕ) (fu pf : Bool) (w : List String) :
    (computeIssueLists n top fu pf w).1.length =
        ((if n < top then 1 else 0) + (if pf = true then 1 else 0) +
          (if fu = true then 1 else 0)) ∧
      (computeIssueLists n top fu pf w).2 = w ∧
      ("fallback_used:theme_insufficient" ∈ (computeIssueLists n top fu pf w).1 ↔
        fu = true) ∧
      ("provider_fallback" ∈ (computeIssueLists n top fu pf w).1 ↔ pf = true) ∧
      ("insufficient_results" ∈ (computeIssueLists n top fu pf w).1 ↔ n < top) := by
  unfold computeIssueLists
  by_cases h1 : n < top <;> by_cases h2 : pf = true <;> by_cases h3 : fu = true <;>
    simp [h1, h2, h3]

/-- Two pointwise-incompatible predicates count at most the length between
them. -/
theorem countP_add_countP_le_length {α : Type} (p q : α → Bool) (l : List α)
    (h : ∀ a, ¬ (p a = true ∧ q a = true)) :
    l.countP p + l.countP q ≤ l.length := by
  induction l with
  | nil => simp
  | cons a t ih =>
    rw [List.countP_cons, List.countP_cons, List.length_cons]
    by_cases hp : p a = true
    · have hq : ¬ q a = true := fun hq => h a ⟨hp, hq⟩
      rw [if_pos hp, if_neg hq]
      omega
    · rw [if_neg hp]
      by_cases hq : q a = true
      · rw [if_pos hq]; omega
      · rw [if_neg hq]; omega

/-- A pandas percentile rank of a value of the series lies in `[0, 1]`. -/
theorem rankPct_bounds {xs : List ℚ} {v : ℚ} (hv : v ∈ xs) :
    0 ≤ rankPct xs v ∧ rankPct xs v ≤ 1 := by
  unfold rankPct
  have hn : 0 < xs.length := List.length_pos.mpr (List.ne_nil_of_mem hv)
  have hnq : (0 : ℚ) < ((xs.length : ℕ) : ℚ) := by exact_mod_cast hn
  have hc2 : 1 ≤ xs.countP (fun u => u = v) := by
    rw [Nat.one_le_iff_ne_zero, ← Nat.pos_iff_ne_zero]
    exact List.countP_pos_iff.mpr ⟨v, hv, by simp⟩
  have hsum : xs.countP (fun u => u < v) + xs.countP (fun u => u = v) ≤ xs.length := by
    refine countP_add_countP_le_length _ _ _ ?_
    intro a ⟨h1, h2⟩
    have h1' : a < v := of_decide_eq_true h1
    have h2' : a = v := of_decide_eq_true h2
    exact absurd (h2' ▸ h1') (lt_irrefl v)
  have hc2q : (1 : ℚ) ≤ ((xs.countP (fun u => u = v) : ℕ) : ℚ) := by exact_mod_cast hc2
  have hsumq : ((xs.countP (fun u => u < v) : ℕ) : ℚ) +
      ((xs.countP (fun u => u = v) : ℕ) : ℚ) ≤ ((xs.length : ℕ) : ℚ) := by
    exact_mod_cast hsum
  constructor
  · apply div_nonneg _ (le_of_lt hnq)
    have h0 : (0 : ℚ) ≤ ((xs.countP (fun u => u < v) : ℕ) : ℚ) := by positivity
    nlinarith
  · rw [div_le_one hnq]
    nlinarith

/-- C2: for every scored row, `final_score = theme_score +
0.5*momentum_20_rank + 0.3*momentum_60_rank + 0.2*volume_rank`, each rank
column is the percentile rank (pandas `average` method, ties sharing the
mean percentile) of the corresponding indicator across the full scored set,
and every rank lies in `[0, 1]`. -/
theorem C2_fused_score_decomposition (f : IndicatorFrame) (signals : List Signal)
    (tm : ThemeMap) :
    ∀ r ∈ (scoreStocks f signals tm).1,
      r.final_score = r.theme_score + 1/2 * r.momentum_20_rank +
          3/10 * r.momentum_60_rank + 1/5 * r.volume_rank ∧
        r.momentum_20_rank =
          rankPct (f.rows.map (fun x => x.momentum_20)) r.momentum_20 ∧
        r.momentum_60_rank =
          rankPct (f.rows.map (fun x => x.momentum_60)) r.momentum_60 ∧
        r.volume_rank =
          rankPct (f.rows.map (fun x => x.avg_volume_20)) r.avg_volume_20 ∧
        (0 ≤ r.momentum_20_rank ∧ r.momentum_20_rank ≤ 1) ∧
        (0 ≤ r.momentum_60_rank ∧ r.momentum_60_rank ≤ 1) ∧
        (0 ≤ r.volume_rank ∧ r.volume_rank ≤ 1) := by
  intro r hr
  unfold scoreStocks at hr
  simp only [List.mem_map] at hr
  obtain ⟨r0, hr0, hmk⟩ := hr
  subst hmk
  refine ⟨by ring, rfl, rfl, rfl, ?_, ?_, ?_⟩
  · exact rankPct_bounds (List.mem_map_of_mem _ hr0)
  · exact rankPct_bounds (List.mem_map_of_mem _ hr0)
  · exact rankPct_bounds (List.mem_map_of_mem _ hr0)

/-- C2 witness: the first scored row of the concrete two-row frame
satisfies the decomposition and its bounds. -/
theorem C2_fused_score_decomposition_witness :
    ((scoreStocks exFrame [exSignal] exThemeMap).1.head! ∈
        (scoreStocks exFrame [exSignal] exThemeMap).1) ∧
      ((scoreStocks exFrame [exSignal] exThemeMap).1.head!.final_score =
          (scoreStocks exFrame [exSignal] exThemeMap).1.head!.theme_score +
            1/2 * (scoreStocks exFrame [exSignal] exThemeMap).1.head!.momentum_20_rank +
            3/10 * (scoreStocks exFrame [exSignal] exThemeMap).1.head!.momentum_60_rank +
            1/5 * (scoreStocks exFrame [exSignal] exThemeMap).1.head!.volume_rank) ∧
      (0 ≤ (scoreStocks exFrame [exSignal] exThemeMap).1.head!.momentum_20_rank ∧
        (scoreStocks exFrame [exSignal] exThemeMap).1.head!.momentum_20_rank ≤ 1) := by
  have hne : (scoreStocks exFrame [exSignal] exThemeMap).1 ≠ [] := by
    simp [scoreStocks, exFrame]
  have hmem : (scoreStocks exFrame [exSignal] exThemeMap).1.head! ∈
      (scoreStocks exFrame [exSignal] exThemeMap).1 := List.head!_mem_self hne
  have h := C2_fused_score_decomposition exFrame [exSignal] exThemeMap _ hmem
  exact ⟨hmem, h.1, h.2.2.2.2.1⟩

/-- A ticker that labels some frame row and is hit by a signal also makes
that signal's hit set non-empty. -/
theorem signalHasHit_of_hitsTicker {f : IndicatorFrame} {tm : ThemeMap} {s : Signal}
    {t : String} (hr : ∃ r ∈ f.rows, r.ticker = t) (hs : hitsTicker f tm s t = true) :
    signalHasHit f tm s = true := by
  obtain ⟨r, hrm, hrt⟩ := hr
  unfold signalHasHit
  refine List.any_eq_true.mpr ⟨r, hrm, ?_⟩
  rw [hrt]
  exact hs

/-- The theme-score fold evaluates to the sum of the weights of the
positive-weight signals whose hit set contains the ticker (provided the
ticker labels a frame row, so that the `if not tickers` guard cannot mask a
hit on it). -/
theorem themeScoreOf_eq_sum (f : IndicatorFrame) (tm : ThemeMap)
    (signals : List Signal) (t : String) (ht : ∃ r ∈ f.rows, r.ticker = t) :
    themeScoreOf f tm signals t =
      ((signals.filter (fun s => decide (0 < s.weight) && hitsTicker f tm s t)).map
        (fun s => s.weight)).sum := by
  unfold themeScoreOf
  suffices h : ∀ (l : List Signal) (acc : ℚ),
      List.foldl (fun acc s =>
        if s.weight ≤ 0 then acc
        else if ¬ signalHasHit f tm s then acc
        else if hitsTicker f tm s t then acc + s.weight else acc) acc l =
      acc + ((l.filter (fun s => decide (0 < s.weight) && hitsTicker f tm s t)).map
        (fun s => s.weight)).sum by
    rw [h signals 0, zero_add]
  intro l
  induction l with
  | nil => intro acc; simp
  | cons s l ih =>
    intro acc
    rw [List.foldl_cons, List.filter_cons]
    by_cases hw : s.weight ≤ 0
    · have hw2 : (decide (0 < s.weight) && hitsTicker f tm s t) = false := by
        simp [not_lt.mpr hw]
      rw [if_pos hw, hw2, if_neg (by simp), ih]
    · rw [if_neg hw]
      have hw2 : decide (0 < s.weight) = true := by simp [lt_of_not_le hw]
      by_cases hh : hitsTicker f tm s t = true
      · have hsh : signalHasHit f tm s = true := signalHasHit_of_hitsTicker ht hh
        rw [if_neg (by simp [hsh]), if_pos hh]
        have hkeep : (decide (0 < s.weight) && hitsTicker f tm s t) = true := by
          rw [hw2, hh]; rfl
        rw [hkeep, if_pos rfl, List.map_cons, List.sum_cons, ih]
        ring
      · have hdrop : (decide (0 < s.weight) && hitsTicker f tm s t) = false := by
          simp [hh]
        have hstep : (if ¬ signalHasHit f tm s = true then acc
            else if hitsTicker f tm s t = true then acc + s.weight else acc) = acc := by
          by_cases hsh : signalHasHit f tm s = true
          · rw [if_neg (by simp [hsh]), if_neg hh]
          · rw [if_pos (by simp [hsh])]
        rw [hstep, hdrop, if_neg (show ¬ (false = true) by simp), ih]

/-- C3: for every scored row, `theme_score` equals the sum of
`signal.weight` over exactly the signals with weight > 0 whose hit set
contains the row's ticker; a signal hit through several match paths (map-
and keyword-based) still contributes its weight once, because the sum
ranges over the signal list, not over individual hits. -/
theorem C3_theme_score_sum (f : IndicatorFrame) (signals : List Signal)
    (tm : ThemeMap) :
    ∀ r ∈ (scoreStocks f signals tm).1,
      r.theme_score =
        ((signals.filter (fun s => decide (0 < s.weight) && hitsTicker f tm s r.ticker)).map
          (fun s => s.weight)).sum := by
  intro r hr
  unfold scoreStocks at hr
  simp only [List.mem_map] at hr
  obtain ⟨r0, hr0, hmk⟩ := hr
  subst hmk
  exact themeScoreOf_eq_sum f tm signals r0.ticker ⟨r0, hr0, rfl⟩

/-- C3 witness: the first scored row of the concrete frame satisfies the
theme-score characterization. -/
theorem C3_theme_score_sum_witness :
    ((scoreStocks exFrame [exSignal, exSignalZero] exThemeMap).1.head! ∈
        (scoreStocks exFrame [exSignal, exSignalZero] exThemeMap).1) ∧
      (scoreStocks exFrame [exSignal, exSignalZero] exThemeMap).1.head!.theme_score =
        ((([exSignal, exSignalZero].filter (fun s => decide (0 < s.weight) &&
            hitsTicker exFrame exThemeMap s
              (scoreStocks exFrame [exSignal, exSignalZero] exThemeMap).1.head!.ticker)).map
          (fun s => s.weight)).sum) := by
  have hne : (scoreStocks exFrame [exSignal, exSignalZero] exThemeMap).1 ≠ [] := by
    simp [scoreStocks, exFrame]
  have hmem := List.head!_mem_self hne
  exact ⟨hmem, C3_theme_score_sum exFrame [exSignal, exSignalZero] exThemeMap _ hmem⟩

/-- Totality of the lexicographic character comparison. -/
theorem lexLe_total : ∀ as bs : List Char, lexLe as bs = true ∨ lexLe bs as = true := by
  intro as
  induction as with
  | nil => intro bs; left; rfl
  | cons a as ih =>
    intro bs
    cases bs with
    | nil => right; rfl
    | cons b bs =>
      rw [lexLe, lexLe]
      rcases lt_trichotomy a b with h | h | h
      · left; rw [if_pos h]
      · subst h
        rcases ih bs with h2 | h2
        · left; rw [if_neg (lt_irrefl a), if_neg (lt_irrefl a)]; exact h2
        · right; rw [if_neg (lt_irrefl a), if_neg (lt_irrefl a)]; exact h2
      · right; rw [if_pos h]

/-- Transitivity of the lexicographic character comparison. -/
theorem lexLe_trans : ∀ as bs cs : List Char,
    lexLe as bs = true → lexLe bs cs = true → lexLe as cs = true := by
  intro as
  induction as with
  | nil => intro bs cs _ _; rfl
  | cons a as ih =>
    intro bs cs hab hbc
    cases bs with
    | nil => exact absurd hab Bool.false_ne_true
    | cons b bs =>
      cases cs with
      | nil => exact absurd hbc Bool.false_ne_true
      | cons c cs =>
        rw [lexLe] at hab hbc ⊢
        by_cases h1 : a < b
        · by_cases h2 : b < c
          · rw [if_pos (h1.trans h2)]
          · rw [if_neg h2] at hbc
            by_cases h3 : c < b
            · rw [if_pos h3] at hbc
              exact absurd hbc Bool.false_ne_true
            · have hbc2 : b = c := le_antisymm (not_lt.mp h3) (not_lt.mp h2)
              rw [if_pos (hbc2 ▸ h1)]
        · rw [if_neg h1] at hab
          by_cases h4 : b < a
          · rw [if_pos h4] at hab
            exact absurd hab Bool.false_ne_true
          · rw [if_neg h4] at hab
            have hba : a = b := le_antisymm (not_lt.mp h4) (not_lt.mp h1)
            subst hba
            by_cases h5 : a < c
            · rw [if_pos h5]
            · rw [if_neg h5] at hbc ⊢
              by_cases h6 : c < a
              · rw [if_pos h6] at hbc
                exact absurd hbc Bool.false_ne_true
              · rw [if_neg h6] at hbc ⊢
                exact ih bs cs hab hbc

/-- Totality of Python string comparison. -/
theorem strLe_total (a b : String) : strLe a b = true ∨ strLe b a = true :=
  lexLe_total a.toList b.toList

/-- Transitivity of Python string comparison. -/
theorem strLe_trans {a b c : String} (h1 : strLe a b = true) (h2 : strLe b c = true) :
    strLe a c = true :=
  lexLe_trans a.toList b.toList c.toList h1 h2

/-- Transitivity of the contribution comparison. -/
theorem contribLe_trans : ∀ a b c : String × ℚ × String,
    contribLe a b = true → contribLe b c = true → contribLe a c = true := by
  intro a b c hab hbc
  unfold contribLe at hab hbc ⊢
  simp only [Bool.or_eq_true, Bool.and_eq_true, decide_eq_true_eq] at hab hbc ⊢
  rcases hab with h1 | ⟨h1, h2⟩ <;> rcases hbc with h3 | ⟨h3, h4⟩
  · exact Or.inl (h3.trans h1)
  · exact Or.inl (by rw [← h3]; exact h1)
  · exact Or.inl (by rw [h1]; exact h3)
  · exact Or.inr ⟨h1.trans h3, strLe_trans h2 h4⟩

/-- Totality of the contribution comparison. -/
theorem contribLe_total : ∀ a b : String × ℚ × String,
    contribLe a b = true ∨ contribLe b a = true := by
  intro a b
  unfold contribLe
  simp only [Bool.or_eq_true, Bool.and_eq_true, decide_eq_true_eq]
  rcases lt_trichotomy a.2.1 b.2.1 with h | h | h
  · exact Or.inr (Or.inl h)
  · rcases strLe_total a.1 b.1 with h2 | h2
    · exact Or.inl (Or.inr ⟨h, h2⟩)
    · exact Or.inr (Or.inr ⟨h.symm, h2⟩)
  · exact Or.inl (Or.inl h)

/-- C7: counterexample.  The claim says `why_in_top5` breaks ties between
equal contributions by the fixed component ordering theme < momentum_20 <
momentum_60 < volume.  On a row whose theme contribution (1/5) ties its
momentum-20 contribution (0.5 · 2/5 = 1/5), the code's sort key
`(-value, name)` orders the *names lexicographically*, putting
`momentum_20` before `theme`. -/
theorem C7_counterexample :
    (buildReportRows [tieRow] [] 5).map (fun row => row.why_in_top5) =
        [[("tech_momentum_20", 1/5), ("theme", 1/5), ("tech_momentum_60", 0)]] ∧
      (1/2 : ℚ) * tieRow.momentum_20_rank = tieRow.theme_score := by
  have s1 : strLe "momentum_20" "theme" = true := by decide
  have s2 : strLe "theme" "momentum_20" = false := by decide
  have s3 : strLe "momentum_60" "volume" = true := by decide
  have s4 : strLe "theme" "momentum_60" = false := by decide
  constructor
  · norm_num [buildReportRows, tieRow, stableSortBy, insertSorted, leFinal, whyInTop5,
      sortedContributions, contributions, contribLe, techComponentsOf, technicalScore,
      mergeHits, hitMapLookup, dedupFirst, dedupFirstAux, s1, s2, s3, s4]
  · norm_num [tieRow]

/-- C7 (amended): each report row's `why_in_top5` is the 3-element prefix
of the four scoring components sorted by contribution value descending,
with ties between equal contributions broken by the component sort-key name
ascending — lexicographically, i.e. momentum_20 < momentum_60 < theme <
volume, not theme-first — rendered as the (prefix, value) pairs of the
signed contribution strings. -/
theorem C7_why_in_top5_order (scored : List ScoredRow) (hm : HitMap) (n : ℕ) :
    ∀ row ∈ buildReportRows scored hm n, ∃ r ∈ scored,
      row.why_in_top5 =
        ((sortedContributions r.theme_score (1/2 * r.momentum_20_rank)
            (3/10 * r.momentum_60_rank) (1/5 * r.volume_rank)).take 3).map
          (fun x => (x.2.2, x.2.1)) ∧
      (sortedContributions r.theme_score (1/2 * r.momentum_20_rank)
          (3/10 * r.momentum_60_rank) (1/5 * r.volume_rank)).Perm
        (contributions r.theme_score (1/2 * r.momentum_20_rank)
          (3/10 * r.momentum_60_rank) (1/5 * r.volume_rank)) ∧
      (sortedContributions r.theme_score (1/2 * r.momentum_20_rank)
          (3/10 * r.momentum_60_rank) (1/5 * r.volume_rank)).Pairwise
        (fun a b => contribLe a b = true) := by
  intro row hrow
  unfold buildReportRows at hrow
  simp only [List.mem_map] at hrow
  obtain ⟨r, hr, hmk⟩ := hrow
  refine ⟨r, ?_, ?_, ?_, ?_⟩
  · exact (stableSortBy_perm leFinal scored).mem_iff.mp (List.take_subset n _ hr)
  · subst hmk; rfl
  · exact stableSortBy_perm contribLe _
  · exact pairwise_stableSortBy contribLe_trans contribLe_total _

/-- C7 (amended) witness: instantiated on the concrete tie row selected
into a report. -/
theorem C7_why_in_top5_order_witness :
    ∃ r ∈ [tieRow],
      ((buildReportRows [tieRow] [] 5).head!).why_in_top5 =
          ((sortedContributions r.theme_score (1/2 * r.momentum_20_rank)
              (3/10 * r.momentum_60_rank) (1/5 * r.volume_rank)).take 3).map
            (fun x => (x.2.2, x.2.1)) ∧
        (sortedContributions r.theme_score (1/2 * r.momentum_20_rank)
            (3/10 * r.momentum_60_rank) (1/5 * r.volume_rank)).Perm
          (contributions r.theme_score (1/2 * r.momentum_20_rank)
            (3/10 * r.momentum_60_rank) (1/5 * r.volume_rank)) ∧
        (sortedContributions r.theme_score (1/2 * r.momentum_20_rank)
            (3/10 * r.momentum_60_rank) (1/5 * r.volume_rank)).Pairwise
          (fun a b => contribLe a b = true) := by
  have hne : buildReportRows [tieRow] [] 5 ≠ [] := by
    simp [buildReportRows, stableSortBy, insertSorted]
  exact C7_why_in_top5_order [tieRow] [] 5 _ (List.head!_mem_self hne)

/-- C9: counterexample.  The claim says every recorded match path is an
element of {ticker, concept, keyword}.  A keyword hit on the `industry`
label is recorded with match path `industry` (scoring.py line 93) — and no
path is ever recorded as the literal `keyword`. -/
theorem C9_counterexample :
    ∃ e ∈ hitMapLookup (scoreStocks exFrame [exSignalZero] []).2 "600000",
      "industry" ∈ e.match_paths ∧
        "industry" ∉ (["ticker", "concept", "keyword"] : List String) := by
  decide

/-- A successful association-list lookup pinpoints a member pair. -/
theorem mem_of_lookup_eq_some {tm : ThemeMap} {sid : String} {v : List MapEntry}
    (h : tm.lookup sid = some v) : (sid, v) ∈ tm := by
  induction tm with
  | nil => cases h
  | cons p rest ih =>
    obtain ⟨k, b⟩ := p
    by_cases hk : (sid == k) = true
    · simp only [List.lookup, hk] at h
      have hsk : sid = k := by simpa using hk
      have hbv : b = v := by simpa using h
      subst hsk
      subst hbv
      exact List.mem_cons_self _ _
    · simp only [List.lookup, hk] at h
      exact List.mem_cons_of_mem _ (ih h)

/-- Entries returned for a signal id are entries of the theme map. -/
theorem mem_themeMapEntries {tm : ThemeMap} {sid : String} {e : MapEntry}
    (h : e ∈ themeMapEntries tm sid) : ∃ p ∈ tm, e ∈ p.2 := by
  unfold themeMapEntries at h
  cases hl : tm.lookup sid with
  | none => rw [hl] at h; cases h
  | some v =>
    rw [hl] at h
    exact ⟨(sid, v), mem_of_lookup_eq_some hl, h⟩

/-- A label column is one of the three fixed column names. -/
theorem mem_labelColumns {f : IndicatorFrame} {col : String}
    (h : col ∈ labelColumns f) :
    col = "industry" ∨ col = "concept" ∨ col = "description" := by
  unfold labelColumns at h
  rcases List.mem_append.mp h with h2 | h2
  · rcases List.mem_append.mp h2 with h3 | h3
    · exact Or.inl (List.mem_singleton.mp h3)
    · by_cases hc : f.has_concept = true
      · rw [if_pos hc] at h3
        exact Or.inr (Or.inl (List.mem_singleton.mp h3))
      · rw [if_neg hc] at h3
        cases h3
  · by_cases hd : f.has_description = true
    · rw [if_pos hd] at h2
      exact Or.inr (Or.inr (List.mem_singleton.mp h2))
    · rw [if_neg hd] at h2
      cases h2

/-- Keyword-pass match paths always name a label column (description
recorded as concept). -/
theorem kwPaths_subset {f : IndicatorFrame} {s : Signal} {t pa : String}
    (h : pa ∈ kwPaths f s t) : pa = "industry" ∨ pa = "concept" := by
  unfold kwPaths at h
  simp only [List.mem_filterMap] at h
  obtain ⟨k, _, hsome⟩ := h
  cases hfind : keywordLabelHit (labelMap f t) k with
  | none => rw [hfind] at hsome; cases hsome
  | some lb =>
  rw [hfind] at hsome
  have hpa : labelPath lb.1 = pa := by simpa using hsome
  have hlb : lb ∈ labelMap f t := by
    unfold keywordLabelHit at hfind
    exact List.mem_of_find?_eq_some hfind
  have hcol : lb.1 = "industry" ∨ lb.1 = "concept" ∨ lb.1 = "description" := by
    unfold labelMap at hlb
    cases hlast : (f.rows.filter (fun r => r.ticker = t)).getLast? with
    | none => rw [hlast] at hlb; cases hlb
    | some r =>
      rw [hlast] at hlb
      unfold labelsOf at hlb
      simp only [List.mem_filterMap] at hlb
      obtain ⟨col, hcolmem, hsome⟩ := hlb
      by_cases hok : (trimStr (labelCell f r col) ≠ "" &&
          toLowerStr (trimStr (labelCell f r col)) ≠ "nan") = true
      · rw [if_pos hok] at hsome
        have : lb.1 = col := by
          cases hsome
          rfl
        rw [this]
        exact mem_labelColumns hcolmem
      · rw [if_neg hok] at hsome
        cases hsome
  subst hpa
  unfold labelPath
  rcases hcol with h1 | h1 | h1
  · rw [h1]
    exact Or.inl (by rw [if_neg (by decide)])
  · rw [h1]
    exact Or.inr (by rw [if_neg (by decide)])
  · rw [h1]
    exact Or.inr (by rw [if_pos rfl])

/-- C9 (amended): provided every theme-map entry type is one of
ticker / concept / industry (the only types `load_theme_industry_map` and
the fallback concept mapper produce), every match path recorded in a
HitDetail — map-based or keyword-based — lies in {ticker, concept,
industry}; map-based industry entries are recorded as `concept`, keyword
hits are recorded under the matched label column (description as
`concept`), and the literal `keyword` never occurs. -/
theorem C9_match_paths_closed (f : IndicatorFrame) (signals : List Signal)
    (tm : ThemeMap)
    (htm : ∀ p ∈ tm, ∀ e ∈ p.2,
      toLowerStr e.map_type ∈ (["ticker", "concept", "industry"] : List String)) :
    ∀ te ∈ (scoreStocks f signals tm).2, ∀ e ∈ te.2, ∀ pa ∈ e.match_paths,
      pa ∈ (["ticker", "concept", "industry"] : List String) := by
  intro te hte e he pa hpa
  have hte2 : te ∈ hitMapOf f tm signals := hte
  unfold hitMapOf at hte2
  simp only [List.mem_filterMap] at hte2
  obtain ⟨t, _, hsome⟩ := hte2
  by_cases hempty : (signals.filterMap (fun s =>
      if hitsTicker f tm s t = true then some (mkHitEntry f tm s t) else none)).isEmpty = true
  · rw [if_pos hempty] at hsome
    cases hsome
  · rw [if_neg hempty] at hsome
    cases hsome
    simp only [List.mem_filterMap] at he
    obtain ⟨s, _, hesome⟩ := he
    by_cases hhit : hitsTicker f tm s t = true
    · rw [if_pos hhit] at hesome
      cases hesome
      have hpa2 : pa ∈ mapPaths f tm s t ++ kwPaths f s t := by
        have := mem_sortedSet.mp hpa
        exact this
      rcases List.mem_append.mp hpa2 with hmp | hkp
      · unfold mapPaths at hmp
        simp only [List.mem_map] at hmp
        obtain ⟨pr, hpr, hpa3⟩ := hmp
        unfold mapHitPairs at hpr
        simp only [List.mem_flatMap, List.mem_map] at hpr
        obtain ⟨me, hme, r, _, hpr2⟩ := hpr
        obtain ⟨p, hp, hmem⟩ := mem_themeMapEntries hme
        have htype := htm p hp me hmem
        subst hpa3
        rw [← hpr2]
        unfold entryPath
        simp only [List.mem_cons, List.not_mem_nil, or_false] at htype ⊢
        rcases htype with h1 | h1 | h1
        · rw [h1, if_neg (by decide)]
          exact Or.inl rfl
        · rw [h1, if_neg (by decide)]
          exact Or.inr (Or.inl rfl)
        · rw [h1, if_pos rfl]
          exact Or.inr (Or.inl rfl)
      · rcases kwPaths_subset hkp with h1 | h1
        · rw [h1]; exact List.mem_cons_of_mem _ (List.mem_cons_of_mem _ (List.mem_cons_self _ _))
        · rw [h1]; exact List.mem_cons_of_mem _ (List.mem_cons_self _ _)
    · rw [if_neg hhit] at hesome
      cases hesome

/-- C9 (amended) witness: instantiated on the concrete frame, signals and
theme map (whose single entry is concept-typed). -/
theorem C9_match_paths_closed_witness :
    (∀ p ∈ exThemeMap, ∀ e ∈ p.2,
        toLowerStr e.map_type ∈ (["ticker", "concept", "industry"] : List String)) ∧
      (∀ te ∈ (scoreStocks exFrame [exSignal, exSignalZero] exThemeMap).2, ∀ e ∈ te.2,
        ∀ pa ∈ e.match_paths, pa ∈ (["ticker", "concept", "industry"] : List String)) :=
  ⟨by decide, C9_match_paths_closed exFrame [exSignal, exSignalZero] exThemeMap (by decide)⟩

/-- Looking up a key of a keyed `filterMap` with duplicate-free keys. -/
theorem lookup_hitKeys (g : String → List HitEntry) :
    ∀ keys : List String, keys.Nodup → ∀ t ∈ keys, ¬ (g t).isEmpty = true →
      (keys.filterMap (fun k =>
        if (g k).isEmpty = true then none else some (k, g k))).lookup t = some (g t) := by
  intro keys
  induction keys with
  | nil => intro _ t ht; cases ht
  | cons k rest ih =>
    intro hnd t ht hne
    by_cases hk : (g k).isEmpty = true
    · have hnone : (if (g k).isEmpty = true then (none : Option (String × List HitEntry))
          else some (k, g k)) = none := if_pos hk
      rw [List.filterMap_cons, hnone]
      rcases List.mem_cons.mp ht with h | h
      · exact absurd (h ▸ hk) hne
      · exact ih hnd.of_cons t h hne
    · have hsome : (if (g k).isEmpty = true then (none : Option (String × List HitEntry))
          else some (k, g k)) = some (k, g k) := if_neg hk
      rw [List.filterMap_cons, hsome]
      by_cases htk : t = k
      · subst htk
        simp [List.lookup]
      · rw [List.lookup]
        have : (t == k) = false := by simp [htk]
        rw [this]
        rcases List.mem_cons.mp ht with h | h
        · exact absurd h htk
        · exact ih hnd.of_cons t h hne

/-- The hit map stores, for each ticker of the frame with at least one hit,
exactly the per-signal entry list. -/
theorem hitMapLookup_hitMapOf (f : IndicatorFrame) (tm : ThemeMap)
    (signals : List Signal) (t : String) (ht : t ∈ f.rows.map (fun r => r.ticker))
    (hne : ¬ (signals.filterMap (fun s =>
      if hitsTicker f tm s t = true then some (mkHitEntry f tm s t) else none)).isEmpty
        = true) :
    hitMapLookup (hitMapOf f tm signals) t =
      signals.filterMap (fun s =>
        if hitsTicker f tm s t = true then some (mkHitEntry f tm s t) else none) := by
  unfold hitMapLookup hitMapOf
  rw [lookup_hitKeys _ _ (dedupFirst_nodup _) t (mem_dedupFirst.mpr ht) hne]
  rfl

/-- The merged theme-hit list carries exactly the first-seen core themes of
the per-signal entries. -/
theorem mergeHits_themes (hits : List HitEntry) :
    (mergeHits hits).map (fun m => m.theme) = dedupFirst (hits.map (fun h => h.theme)) := by
  unfold mergeHits
  rw [List.map_map]
  exact List.map_id _

/-- Signals of non-positive weight can be dropped from the theme-score fold
without changing it. -/
theorem themeScoreOf_filter_ne (f : IndicatorFrame) (tm : ThemeMap)
    (signals : List Signal) (s : Signal) (hw : s.weight ≤ 0) (t : String) :
    themeScoreOf f tm signals t =
      themeScoreOf f tm (signals.filter (fun x => x ≠ s)) t := by
  unfold themeScoreOf
  suffices h : ∀ (l : List Signal) (acc : ℚ),
      List.foldl (fun acc x =>
        if x.weight ≤ 0 then acc
        else if ¬ signalHasHit f tm x then acc
        else if hitsTicker f tm x t then acc + x.weight else acc) acc l =
      List.foldl (fun acc x =>
        if x.weight ≤ 0 then acc
        else if ¬ signalHasHit f tm x then acc
        else if hitsTicker f tm x t then acc + x.weight else acc) acc
        (l.filter (fun x => x ≠ s)) by
    exact h signals 0
  intro l
  induction l with
  | nil => intro acc; rfl
  | cons x l ih =>
    intro acc
    rw [List.foldl_cons, List.filter_cons]
    by_cases hx : x = s
    · have hdrop : (decide (x ≠ s)) = false := by simp [hx]
      rw [hdrop, if_neg (show ¬ (false = true) by simp)]
      subst hx
      rw [if_pos hw]
      exact ih acc
    · have hkeep : (decide (x ≠ s)) = true := by simp [hx]
      rw [hkeep, if_pos rfl, List.foldl_cons]
      exact ih _

/-- C10: hit matching and HitDetail bookkeeping ignore the weight: a signal
with weight ≤ 0 that matches a ticker still yields a hit-map entry carrying
its id and core theme, its core theme therefore appears in the merged
`theme_hits` built for that ticker's report row, its removal leaves
`theme_score` unchanged, and the hit predicate itself does not read the
weight field. -/
theorem C10_zero_weight_signal_still_recorded (f : IndicatorFrame) (tm : ThemeMap)
    (signals : List Signal) (s : Signal) (t : String)
    (hs : s ∈ signals) (hw : s.weight ≤ 0) (hhit : hitsTicker f tm s t = true)
    (hrow : ∃ r ∈ f.rows, r.ticker = t) :
    (∃ e ∈ hitMapLookup (scoreStocks f signals tm).2 t,
        e.signal_id = s.id ∧ e.theme = s.core_theme) ∧
      s.core_theme ∈ (mergeHits (hitMapLookup (scoreStocks f signals tm).2 t)).map
        (fun m => m.theme) ∧
      themeScoreOf f tm signals t =
        themeScoreOf f tm (signals.filter (fun x => x ≠ s)) t ∧
      (∀ w : ℚ, hitsTicker f tm { s with weight := w } t = true) := by
  have hmem : mkHitEntry f tm s t ∈ signals.filterMap (fun x =>
      if hitsTicker f tm x t = true then some (mkHitEntry f tm x t) else none) :=
    List.mem_filterMap.mpr ⟨s, hs, by rw [if_pos hhit]⟩
  have hne : ¬ (signals.filterMap (fun x =>
      if hitsTicker f tm x t = true then some (mkHitEntry f tm x t) else none)).isEmpty
        = true := by
    rw [List.isEmpty_iff]
    exact List.ne_nil_of_mem hmem
  have ht2 : t ∈ f.rows.map (fun r => r.ticker) := by
    obtain ⟨r, hr, hrt⟩ := hrow
    exact List.mem_map.mpr ⟨r, hr, hrt⟩
  have hlk : hitMapLookup (scoreStocks f signals tm).2 t =
      signals.filterMap (fun x =>
        if hitsTicker f tm x t = true then some (mkHitEntry f tm x t) else none) :=
    hitMapLookup_hitMapOf f tm signals t ht2 hne
  refine ⟨⟨mkHitEntry f tm s t, hlk ▸ hmem, rfl, rfl⟩, ?_, ?_, ?_⟩
  · rw [hlk, mergeHits_themes, mem_dedupFirst]
    exact List.mem_map.mpr ⟨mkHitEntry f tm s t, hmem, rfl⟩
  · exact themeScoreOf_filter_ne f tm signals s hw t
  · intro w
    exact hhit

/-- C10 witness: the weight-0 risk signal keyword-matches the first example
row; it is recorded in the hit map and the merged themes while leaving the
theme score unchanged. -/
theorem C10_zero_weight_signal_still_recorded_witness :
    (∃ e ∈ hitMapLookup (scoreStocks exFrame [exSignal, exSignalZero] exThemeMap).2 "600000",
        e.signal_id = exSignalZero.id ∧ e.theme = exSignalZero.core_theme) ∧
      exSignalZero.core_theme ∈
        (mergeHits (hitMapLookup (scoreStocks exFrame [exSignal, exSignalZero] exThemeMap).2
          "600000")).map (fun m => m.theme) ∧
      themeScoreOf exFrame exThemeMap [exSignal, exSignalZero] "600000" =
        themeScoreOf exFrame exThemeMap
          ([exSignal, exSignalZero].filter (fun x => x ≠ exSignalZero)) "600000" ∧
      (∀ w : ℚ, hitsTicker exFrame exThemeMap { exSignalZero with weight := w } "600000"
        = true) :=
  C10_zero_weight_signal_still_recorded exFrame exThemeMap [exSignal, exSignalZero]
    exSignalZero "600000" (by decide) (by norm_num [exSignalZero]) (by decide)
    ⟨exRow1, List.mem_cons_self _ _, rfl⟩

/-- C1: with `theme_weight = 0` the caller zeroes `theme_score` and
replaces `final_score` by the technical score on every scored row, so every
report row built from the ablated frame has `score_theme_total = 0`; the
hit map the run returns is exactly the one `score_stocks` produced — for
any theme weight — so the ablation alters only the aggregate scores and
never the HitDetail bookkeeping. -/
theorem C1_theme_weight_zero_ablation (f : IndicatorFrame) (signals : List Signal)
    (tm : ThemeMap) (top : ℕ) :
    (∀ r ∈ (runScored 0 f signals tm).1,
        r.theme_score = 0 ∧ r.final_score = r.technical_score) ∧
      (∀ w : ℚ, (runScored w f signals tm).2 = (scoreStocks f signals tm).2) ∧
      (∀ row ∈ buildReportRows (runScored 0 f signals tm).1
          (runScored 0 f signals tm).2 top, row.score_theme_total = 0) := by
  have hzero : ∀ r ∈ (runScored 0 f signals tm).1,
      r.theme_score = 0 ∧ r.final_score = r.technical_score := by
    intro r hr
    have hr2 : r ∈ (scoreStocks f signals tm).1.map
        (fun x => { x with theme_score := 0, final_score := x.technical_score }) := by
      simpa [runScored, ablateScores] using hr
    simp only [List.mem_map] at hr2
    obtain ⟨r0, _, hmk⟩ := hr2
    subst hmk
    exact ⟨rfl, rfl⟩
  refine ⟨hzero, fun w => rfl, ?_⟩
  intro row hrow
  unfold buildReportRows at hrow
  simp only [List.mem_map] at hrow
  obtain ⟨r, hrtake, hmk⟩ := hrow
  have hrmem : r ∈ (runScored 0 f signals tm).1 :=
    (stableSortBy_perm leFinal _).mem_iff.mp (List.take_subset top _ hrtake)
  subst hmk
  exact (hzero r hrmem).1

/-- C1 witness: instantiated on the concrete frame; the tech-only run's
first scored row and first report row are ablated, and the weight-1 run
returns the same hit map as `score_stocks`. -/
theorem C1_theme_weight_zero_ablation_witness :
    ((runScored 0 exFrame [exSignal] exThemeMap).1.head!.theme_score = 0 ∧
        (runScored 0 exFrame [exSignal] exThemeMap).1.head!.final_score =
          (runScored 0 exFrame [exSignal] exThemeMap).1.head!.technical_score) ∧
      (runScored 1 exFrame [exSignal] exThemeMap).2 =
        (scoreStocks exFrame [exSignal] exThemeMap).2 ∧
      (buildReportRows (runScored 0 exFrame [exSignal] exThemeMap).1
          (runScored 0 exFrame [exSignal] exThemeMap).2 5).head!.score_theme_total = 0 := by
  have h := C1_theme_weight_zero_ablation exFrame [exSignal] exThemeMap 5
  have hne1 : (runScored 0 exFrame [exSignal] exThemeMap).1 ≠ [] := by
    simp [runScored, ablateScores, scoreStocks, exFrame]
  have hne2 : buildReportRows (runScored 0 exFrame [exSignal] exThemeMap).1
      (runScored 0 exFrame [exSignal] exThemeMap).2 5 ≠ [] := by
    apply List.length_pos.mp
    have hlen : (buildReportRows (runScored 0 exFrame [exSignal] exThemeMap).1
        (runScored 0 exFrame [exSignal] exThemeMap).2 5).length =
          min 5 (runScored 0 exFrame [exSignal] exThemeMap).1.length := by
      unfold buildReportRows
      rw [List.length_map, List.length_take, length_stableSortBy]
    have h2 : (runScored 0 exFrame [exSignal] exThemeMap).1.length = 2 := by
      simp [runScored, ablateScores, scoreStocks, exFrame]
    rw [hlen, h2]
    omega
  exact ⟨h.1 _ (List.head!_mem_self hne1), h.2.1 1, h.2.2 _ (List.head!_mem_self hne2)⟩

/-- An enumerated position addresses its element. -/
theorem getD_of_mem_enum {l : List PriceBar} {i : ℕ} {b : PriceBar}
    (h : (i, b) ∈ l.enum) : l.getD i default = b := by
  rw [List.mem_enum_iff_getElem?] at h
  simp [List.getD, h]

/-- Rows emitted for a ticker carry that ticker and the as-of date. -/
theorem latestRowsFor_fields (df : List PriceBar) (as_of : Int) (t : String) :
    ∀ r ∈ latestRowsFor df as_of t, r.ticker = t ∧ r.date = as_of := by
  intro r hr
  unfold latestRowsFor at hr
  simp only [List.mem_filterMap] at hr
  obtain ⟨p, hp, hsome⟩ := hr
  by_cases hd : p.2.date = as_of
  · rw [if_pos hd] at hsome
    cases hsome
    have hget : (tickerSeries df t).getD p.1 default = p.2 := getD_of_mem_enum hp
    have hmem : p.2 ∈ tickerSeries df t := by
      obtain ⟨hlt, hidx⟩ := List.mem_enum hp
      rw [hidx]
      exact List.getElem_mem hlt
    have htick : p.2.ticker = t := by
      have := (stableSortBy_perm _ _).mem_iff.mp hmem
      have := List.mem_filter.mp this
      exact of_decide_eq_true this.2
    constructor
    · show (latestRowAt (tickerSeries df t) p.1).ticker = t
      unfold latestRowAt
      rw [hget]
      exact htick
    · show (latestRowAt (tickerSeries df t) p.1).date = as_of
      unfold latestRowAt
      rw [hget]
      exact hd
  · rw [if_neg hd] at hsome
    cases hsome

/-- Counting a guarded `filterMap` over pairs. -/
theorem length_filterMap_guard {α β : Type} (L : List (ℕ × α)) (q : α → Prop)
    [DecidablePred q] (g : ℕ × α → β) :
    (L.filterMap (fun p => if q p.2 then some (g p) else none)).length =
      L.countP (fun p => decide (q p.2)) := by
  induction L with
  | nil => rfl
  | cons p L ih =>
    rw [List.filterMap_cons, List.countP_cons]
    by_cases hq : q p.2
    · rw [if_pos hq, if_pos (decide_eq_true hq)]
      simp only [List.length_cons, ih]
    · rw [if_neg hq, if_neg (by simpa using hq), ih]
      omega

/-- Counting a predicate on values through `enumFrom`. -/
theorem countP_enumFrom (q : PriceBar → Bool) :
    ∀ (l : List PriceBar) (n : ℕ),
      (List.enumFrom n l).countP (fun p => q p.2) = l.countP q := by
  intro l
  induction l with
  | nil => intro n; rfl
  | cons b l ih =>
    intro n
    rw [List.enumFrom_cons, List.countP_cons, List.countP_cons, ih]

/-- The number of rows a ticker contributes equals the number of its bars
dated exactly `as_of` within the cutoff-filtered frame. -/
theorem length_latestRowsFor (df : List PriceBar) (as_of : Int) (t : String) :
    (latestRowsFor df as_of t).length =
      df.countP (fun b => decide (b.ticker = t) && decide (b.date = as_of)) := by
  unfold latestRowsFor
  rw [length_filterMap_guard ((tickerSeries df t).enum) (fun b => b.date = as_of)
    (fun p => latestRowAt (tickerSeries df t) p.1)]
  have h1 : (tickerSeries df t).enum.countP (fun p => decide (p.2.date = as_of)) =
      (tickerSeries df t).countP (fun b => decide (b.date = as_of)) := by
    show (List.enumFrom 0 (tickerSeries df t)).countP (fun p => decide (p.2.date = as_of)) =
      (tickerSeries df t).countP (fun b => decide (b.date = as_of))
    exact countP_enumFrom (fun b => decide (b.date = as_of)) (tickerSeries df t) 0
  rw [h1]
  unfold tickerSeries
  rw [(stableSortBy_perm _ _).countP_eq, List.countP_filter]
  apply List.countP_congr
  intro b _
  constructor
  · intro h
    simp only [Bool.and_eq_true, decide_eq_true_eq] at h ⊢
    exact ⟨h.2, h.1⟩
  · intro h
    simp only [Bool.and_eq_true, decide_eq_true_eq] at h ⊢
    exact ⟨h.2, h.1⟩

/-- Summing a Kronecker-style map over duplicate-free keys. -/
theorem sum_map_ite_eq (t : String) (C : ℕ) :
    ∀ keys : List String, keys.Nodup →
      (keys.map (fun k => if k = t then C else 0)).sum =
        if t ∈ keys then C else 0 := by
  intro keys
  induction keys with
  | nil => intro _; rfl
  | cons k rest ih =>
    intro hnd
    rw [List.map_cons, List.sum_cons, ih hnd.of_cons]
    by_cases hk : k = t
    · subst hk
      rw [if_pos rfl, if_pos (List.mem_cons_self _ _),
        if_neg (fun hmem => (List.nodup_cons.mp hnd).1 hmem)]
      omega
    · rw [if_neg hk]
      by_cases ht : t ∈ rest
      · rw [if_pos ht, if_pos (List.mem_cons_of_mem _ ht), Nat.zero_add]
      · rw [if_neg ht, if_neg (fun hmem => by
          rcases List.mem_cons.mp hmem with h | h
          · exact hk h.symm
          · exact ht h)]

/-- Per-ticker row count of `compute_indicators`: exactly the number of
input bars of that ticker dated `as_of` (bars after the cutoff never
count). -/
theorem computeIndicators_countP (bars : List PriceBar) (as_of : Int) (t : String) :
    (computeIndicators bars as_of).countP (fun r => decide (r.ticker = t)) =
      bars.countP (fun b => decide (b.ticker = t) && decide (b.date = as_of)) := by
  unfold computeIndicators computeIndicatorsFrom
  set df := bars.filter (fun b => b.date ≤ as_of) with hdf
  rw [List.countP_flatMap]
  have hterm : ∀ k : String,
      (List.countP (fun r => decide (r.ticker = t)) ∘ latestRowsFor df as_of) k =
        if k = t then (latestRowsFor df as_of t).length else 0 := by
    intro k
    by_cases hk : k = t
    · subst hk
      rw [if_pos rfl]
      exact List.countP_eq_length.mpr (fun r hr =>
        decide_eq_true ((latestRowsFor_fields df as_of k r hr).1))
    · rw [if_neg hk]
      exact List.countP_eq_zero.mpr (fun r hr hp =>
        hk (((latestRowsFor_fields df as_of k r hr).1) ▸ of_decide_eq_true hp))
  rw [List.map_congr_left (fun k _ => hterm k)]
  have hnd : (sortStr (dedupFirst (df.map (fun b => b.ticker)))).Nodup :=
    ((stableSortBy_perm _ _).nodup_iff).mpr (dedupFirst_nodup _)
  rw [sum_map_ite_eq t _ _ hnd]
  have hmemiff : t ∈ sortStr (dedupFirst (df.map (fun b => b.ticker))) ↔
      t ∈ df.map (fun b => b.ticker) := by
    unfold sortStr
    rw [(stableSortBy_perm _ _).mem_iff]
    exact mem_dedupFirst
  have hcount : df.countP (fun b => decide (b.ticker = t) && decide (b.date = as_of)) =
      bars.countP (fun b => decide (b.ticker = t) && decide (b.date = as_of)) := by
    rw [hdf, List.countP_filter]
    apply List.countP_congr
    intro b _
    simp only [Bool.and_eq_true, decide_eq_true_eq]
    constructor
    · intro h; exact h.1
    · intro h; exact ⟨h, le_of_eq h.2⟩
  by_cases hmem : t ∈ df.map (fun b => b.ticker)
  · rw [if_pos (hmemiff.mpr hmem), length_latestRowsFor, hcount]
  · rw [if_neg (fun h => hmem (hmemiff.mp h)), ← hcount]
    symm
    exact List.countP_eq_zero.mpr (fun b hb hp => by
      simp only [Bool.and_eq_true, decide_eq_true_eq] at hp
      exact hmem (List.mem_map.mpr ⟨b, hb, hp.1⟩))

/-- C4: `compute_indicators` never reads past the as-of date — its output
on the input with post-`as_of` bars removed is identical; every emitted row
is dated exactly `as_of`; per ticker it emits exactly as many rows as the
ticker has bars dated `as_of` (so exactly one under per-ticker date
uniqueness when the series reaches `as_of`); and a non-empty output's
maximum date equals `as_of`. -/
theorem C4_no_lookahead (bars : List PriceBar) (as_of : Int) :
    computeIndicators (bars.filter (fun b => b.date ≤ as_of)) as_of =
        computeIndicators bars as_of ∧
      (∀ r ∈ computeIndicators bars as_of, r.date = as_of) ∧
      (∀ t : String,
        (computeIndicators bars as_of).countP (fun r => decide (r.ticker = t)) =
          bars.countP (fun b => decide (b.ticker = t) && decide (b.date = as_of))) ∧
      (∀ t : String,
        bars.countP (fun b => decide (b.ticker = t) && decide (b.date = as_of)) = 1 →
          (computeIndicators bars as_of).countP (fun r => decide (r.ticker = t)) = 1) ∧
      (computeIndicators bars as_of ≠ [] →
        ((computeIndicators bars as_of).map (fun r => r.date)).maximum
          = (as_of : WithBot Int)) := by
  have hdates : ∀ r ∈ computeIndicators bars as_of, r.date = as_of := by
    intro r hr
    unfold computeIndicators computeIndicatorsFrom at hr
    simp only [List.mem_flatMap] at hr
    obtain ⟨k, _, hr2⟩ := hr
    exact (latestRowsFor_fields _ as_of k r hr2).2
  refine ⟨?_, hdates, computeIndicators_countP bars as_of, ?_, ?_⟩
  · unfold computeIndicators
    congr 1
    rw [List.filter_filter]
    congr 1
    funext b
    rw [Bool.and_self]
  · intro t h1
    rw [computeIndicators_countP bars as_of t, h1]
  · intro hne
    apply List.maximum_eq_coe_iff.mpr
    obtain ⟨r, hr⟩ := List.exists_mem_of_ne_nil _ hne
    constructor
    · exact List.mem_map.mpr ⟨r, hr, hdates r hr⟩
    · intro a ha
      obtain ⟨r2, hr2, hd2⟩ := List.mem_map.mp ha
      rw [← hd2, hdates r2 hr2]

/-- C4 witness: on the three-bar history the count hypotheses hold and the
instantiated conclusions follow. -/
theorem C4_no_lookahead_witness :
    exBars.countP (fun b => decide (b.ticker = "A0001") && decide (b.date = 20)) = 1 ∧
      (computeIndicators exBars 20).countP (fun r => decide (r.ticker = "A0001")) = 1 ∧
      computeIndicators exBars 20 ≠ [] ∧
      ((computeIndicators exBars 20).map (fun r => r.date)).maximum
        = ((20 : Int) : WithBot Int) := by
  have h := C4_no_lookahead exBars 20
  have h1 : exBars.countP (fun b => decide (b.ticker = "A0001") && decide (b.date = 20))
      = 1 := by decide
  have hne : computeIndicators exBars 20 ≠ [] := by decide
  exact ⟨h1, h.2.2.2.1 "A0001" h1, hne, h.2.2.2.2 hne⟩

end Chunwan
